import Mathlib

/-!
Shallow embedding of the vibron-socket room coordination server.
The canonical source is the store-backed variant with error handling
(the most complete of the repository's near-duplicate variants): its
room record shape, the seven command handlers and the periodic
reconciliation loop are translated below.

Modelling conventions:
* The redis store is an association list of entries keyed by the bare
  room id (the constant "room:" key prefix is an injective renaming and
  is dropped).  `redis.set key value EX: 86400` replaces the entry and
  resets its ttl field to `ROOM_TTL`; `redis.del` drops the entry;
  `redis.keys` lists the keys.
* Every socket emission is recorded as an `Effect`: an `error`,
  `roomCreated` or `roomJoined` event to the requesting connection, an
  `updateState` broadcast to a room's group, or a `socket.join` call.
* JS numbers carried by payloads (`currentTime`) are embedded as `Int`,
  an opaque signed numeric cursor; the handlers never inspect them
  beyond copying, so only sign and equality matter to the claims.
* `Math.random().toString(36).substring(2, 8)` in `createRoom` is
  embedded by passing the fractional base-36 digit list of the random
  value: `toString(36)` renders a value of [0,1) as "0." followed by
  those digits ("0" alone for the value 0), so `substring(2, 8)` is
  exactly the first six digits of that list.
-/

namespace Vibron

/-- Room record persisted in the store, field for field the `RoomState`
interface of the source. -/
structure RoomState where
  currentSong : Option String
  currentSongId : Option String
  currentTime : Int
  isPlaying : Bool
  users : List String
  mood : Option String
  language : Option String
  leaderId : String
  title : Option String
  artist : Option String
  image : Option String
  deriving Repr, DecidableEq

/-- One stored key/value pair together with its remaining time-to-live
in seconds. -/
structure Entry where
  key : String
  state : RoomState
  ttl : Nat
  deriving Repr, DecidableEq

/-- The redis store, an association list of room entries. -/
abbrev Store := List Entry

/-- Expiry used on every write: `EX: 24 * 60 * 60`. -/
def ROOM_TTL : Nat := 24 * 60 * 60

/-- Observable socket emissions of a handler run. -/
inductive Effect where
  | errorToSender (msg : String)
  | roomCreatedToSender (roomId : String)
  | roomJoinedToSender (roomId : String) (st : RoomState)
  | updateStateToRoom (roomId : String) (st : RoomState)
  | joinGroup (roomId : String)
  deriving Repr, DecidableEq

/-- Model of `redis.get`: the value stored at the first entry carrying
the key, if any. -/
def rget : Store → String → Option RoomState
  | [], _ => none
  | e :: rest, k => if e.key = k then some e.state else rget rest k

/-- Model of `redis.set` with `EX: ROOM_TTL`: overwrite the entry for
the key (resetting its ttl) or append a fresh one. -/
def rset : Store → String → RoomState → Store
  | [], k, v => [⟨k, v, ROOM_TTL⟩]
  | e :: rest, k, v =>
    if e.key = k then ⟨k, v, ROOM_TTL⟩ :: rest else e :: rset rest k v

/-- Model of `redis.keys`, restricted to the room namespace. -/
def storeKeys (s : Store) : List String := s.map Entry.key

/-- Test of the room-id regular expression used by `joinRoom`: six
characters, each a lowercase letter or a digit. -/
def isRoomIdChar (c : Char) : Bool :=
  ('a' ≤ c && c ≤ 'z') || ('0' ≤ c && c ≤ '9')

/-- Whether a string matches the source's room-id pattern of exactly
six lowercase alphanumeric characters. -/
def isValidRoomId (s : String) : Bool :=
  s.toList.length == 6 && s.toList.all isRoomIdChar

/-- The room id built from the random value's fractional base-36
digits: `substring(2, 8)` keeps at most the first six of them. -/
def genRoomId (randChars : List Char) : String :=
  String.mk (randChars.take 6)

/-- The `createRoom` handler: build the fresh record, persist it with
ttl, join the group and acknowledge the creator. -/
def createRoom (store : Store) (senderId : String) (isMoodMode : Bool)
    (randChars : List Char) : Store × List Effect :=
  let roomId := genRoomId randChars
  let st : RoomState :=
    { currentSong := none
      currentSongId := none
      currentTime := 0
      isPlaying := false
      users := [senderId]
      mood := if isMoodMode then some "neutral" else none
      language := if isMoodMode then some "english" else none
      leaderId := senderId
      title := none
      artist := none
      image := none }
  (rset store roomId st,
    [Effect.joinGroup roomId, Effect.roomCreatedToSender roomId])

/-- The `joinRoom` handler: format check first, then load, append the
joiner to `users`, persist, join the group and acknowledge. -/
def joinRoom (store : Store) (senderId roomId : String) :
    Store × List Effect :=
  if isValidRoomId roomId then
    match rget store roomId with
    | some st =>
      let st' := { st with users := st.users ++ [senderId] }
      (rset store roomId st',
        [Effect.joinGroup roomId, Effect.roomJoinedToSender roomId st'])
    | none => (store, [Effect.errorToSender "Room not found"])
  else (store, [Effect.errorToSender "Invalid room ID"])

/-- The `playPause` handler: leader-gated update of `isPlaying` and
`currentTime`, broadcast on success. -/
def playPause (store : Store) (senderId roomId : String)
    (isPlaying : Bool) (currentTime : Int) : Store × List Effect :=
  match rget store roomId with
  | some st =>
    if senderId = st.leaderId then
      let st' := { st with isPlaying := isPlaying, currentTime := currentTime }
      (rset store roomId st', [Effect.updateStateToRoom roomId st'])
    else (store, [Effect.errorToSender "Only the room leader can control playback"])
  | none => (store, [Effect.errorToSender "Only the room leader can control playback"])

/-- The `changeSong` handler: leader-gated replacement of the song and
its display metadata, resetting the cursor and starting playback. -/
def changeSong (store : Store) (senderId roomId songUrl songId : String)
    (title artist image : Option String) : Store × List Effect :=
  match rget store roomId with
  | some st =>
    if senderId = st.leaderId then
      let st' := { st with
        currentSong := some songUrl
        currentSongId := some songId
        currentTime := 0
        isPlaying := true
        title := title
        artist := artist
        image := image }
      (rset store roomId st', [Effect.updateStateToRoom roomId st'])
    else (store, [Effect.errorToSender "Only the room leader can change songs"])
  | none => (store, [Effect.errorToSender "Only the room leader can change songs"])

/-- The `changeMoodSong` handler: like `changeSong` but also setting
`mood` and `language`, and carrying no `image` field. -/
def changeMoodSong (store : Store) (senderId roomId songUrl songId mood language : String)
    (title artist : Option String) : Store × List Effect :=
  match rget store roomId with
  | some st =>
    if senderId = st.leaderId then
      let st' := { st with
        currentSong := some songUrl
        currentSongId := some songId
        mood := some mood
        language := some language
        currentTime := 0
        isPlaying := true
        title := title
        artist := artist }
      (rset store roomId st', [Effect.updateStateToRoom roomId st'])
    else (store, [Effect.errorToSender "Only the room leader can change songs"])
  | none => (store, [Effect.errorToSender "Only the room leader can change songs"])

/-- The `seek` handler: leader-gated update of `currentTime` alone. -/
def seek (store : Store) (senderId roomId : String) (currentTime : Int) :
    Store × List Effect :=
  match rget store roomId with
  | some st =>
    if senderId = st.leaderId then
      let st' := { st with currentTime := currentTime }
      (rset store roomId st', [Effect.updateStateToRoom roomId st'])
    else (store, [Effect.errorToSender "Only the room leader can seek"])
  | none => (store, [Effect.errorToSender "Only the room leader can seek"])

/-- Per-room body of the disconnect sweep: drop the departing id from
`users`; when the leader left and members remain, hand leadership to
the first remaining member; when nobody remains, delete the record
(`none`). -/
def disconnectRoom (senderId : String) (st : RoomState) : Option RoomState :=
  match st.users.filter (fun id => id != senderId) with
  | [] => none
  | u :: us =>
    if st.leaderId = senderId then some { st with users := u :: us, leaderId := u }
    else some { st with users := u :: us }

/-- The `disconnect` handler: sweep every stored room, applying
`disconnectRoom`; surviving rooms are re-persisted with a fresh ttl
and broadcast, emptied rooms are deleted. -/
def disconnect (store : Store) (senderId : String) : Store × List Effect :=
  match store with
  | [] => ([], [])
  | e :: rest =>
    let tail := disconnect rest senderId
    match disconnectRoom senderId e.state with
    | none => tail
    | some st' =>
      (⟨e.key, st', ROOM_TTL⟩ :: tail.1,
        Effect.updateStateToRoom e.key st' :: tail.2)

/-- One inbound command, covering every socket event the server
handles. -/
inductive Cmd where
  | createRoom (senderId : String) (isMoodMode : Bool) (randChars : List Char)
  | joinRoom (senderId roomId : String)
  | playPause (senderId roomId : String) (isPlaying : Bool) (currentTime : Int)
  | changeSong (senderId roomId songUrl songId : String)
      (title artist image : Option String)
  | changeMoodSong (senderId roomId songUrl songId mood language : String)
      (title artist : Option String)
  | seek (senderId roomId : String) (currentTime : Int)
  | disconnect (senderId : String)
  deriving Repr, DecidableEq

/-- The event dispatcher: route a command to its handler. -/
def step (store : Store) : Cmd → Store × List Effect
  | Cmd.createRoom senderId isMoodMode randChars =>
    createRoom store senderId isMoodMode randChars
  | Cmd.joinRoom senderId roomId => joinRoom store senderId roomId
  | Cmd.playPause senderId roomId isPlaying currentTime =>
    playPause store senderId roomId isPlaying currentTime
  | Cmd.changeSong senderId roomId songUrl songId title artist image =>
    changeSong store senderId roomId songUrl songId title artist image
  | Cmd.changeMoodSong senderId roomId songUrl songId mood language title artist =>
    changeMoodSong store senderId roomId songUrl songId mood language title artist
  | Cmd.seek senderId roomId currentTime => seek store senderId roomId currentTime
  | Cmd.disconnect senderId => disconnect store senderId

/-- Body of one `setInterval` sweep over an explicit key list: each key
is loaded from the store and, when present, its record is broadcast;
the store is threaded through untouched because the loop body issues
no write. -/
def reconcileKeys (store : Store) : List String → Store × List Effect
  | [] => (store, [])
  | k :: ks =>
    let tail := reconcileKeys store ks
    match rget store k with
    | some st => (tail.1, Effect.updateStateToRoom k st :: tail.2)
    | none => tail

/-- One iteration of the reconciliation loop: sweep the store's own
keys. -/
def reconcileTick (store : Store) : Store × List Effect :=
  reconcileKeys store (storeKeys store)

/-! Basic store lemmas. -/

/-- Reading back the key just written yields the written record. -/
theorem rget_rset_self (s : Store) (k : String) (v : RoomState) :
    rget (rset s k v) k = some v := by
  induction s with
  | nil => simp [rset, rget]
  | cons e rest ih =>
    by_cases h : e.key = k <;> simp [rset, rget, h, ih]

/-- Every entry of a store after a write is the written entry or an
entry already present. -/
theorem mem_rset (s : Store) (k : String) (v : RoomState) (e : Entry)
    (he : e ∈ rset s k v) : e = ⟨k, v, ROOM_TTL⟩ ∨ e ∈ s := by
  induction s with
  | nil => simpa [rset] using he
  | cons e₀ rest ih =>
    by_cases h : e₀.key = k
    · simp only [rset, if_pos h, List.mem_cons] at he
      rcases he with he | he
      · exact Or.inl he
      · exact Or.inr (List.mem_cons_of_mem _ he)
    · simp only [rset, if_neg h, List.mem_cons] at he
      rcases he with he | he
      · exact Or.inr (by simp [he])
      · rcases ih he with h' | h'
        · exact Or.inl h'
        · exact Or.inr (List.mem_cons_of_mem _ h')

/-- A key present after a write was already present or is the written
key. -/
theorem mem_storeKeys_rset (s : Store) (k a : String) (v : RoomState)
    (ha : a ∈ storeKeys (rset s k v)) : a ∈ storeKeys s ∨ a = k := by
  rcases List.mem_map.1 ha with ⟨e, he, rfl⟩
  rcases mem_rset s k v e he with rfl | he'
  · exact Or.inr rfl
  · exact Or.inl (List.mem_map_of_mem _ he')

/-- A write never introduces a duplicate key. -/
theorem nodup_storeKeys_rset (s : Store) (k : String) (v : RoomState)
    (h : (storeKeys s).Nodup) : (storeKeys (rset s k v)).Nodup := by
  induction s with
  | nil => simp [rset, storeKeys]
  | cons e rest ih =>
    simp only [storeKeys, List.map_cons, List.nodup_cons] at h
    by_cases hk : e.key = k
    · rw [rset, if_pos hk]
      simp only [storeKeys, List.map_cons, List.nodup_cons]
      exact ⟨hk ▸ h.1, h.2⟩
    · rw [rset, if_neg hk]
      simp only [storeKeys, List.map_cons, List.nodup_cons]
      refine ⟨?_, ih h.2⟩
      intro hmem
      rcases mem_storeKeys_rset rest k e.key v hmem with h' | h'
      · exact h.1 h'
      · exact hk h'

/-- A key that is not stored reads back as absent. -/
theorem rget_eq_none_of_not_mem (s : Store) (k : String)
    (h : k ∉ storeKeys s) : rget s k = none := by
  induction s with
  | nil => rfl
  | cons e rest ih =>
    simp only [storeKeys, List.map_cons, List.mem_cons, not_or] at h
    simp [rget, Ne.symm h.1, ih h.2]

/-- A stored record is reachable by its own key as long as keys are
unique. -/
theorem rget_eq_state_of_mem (s : Store) (e : Entry)
    (hnd : (storeKeys s).Nodup) (he : e ∈ s) : rget s e.key = some e.state := by
  induction s with
  | nil => cases he
  | cons e₀ rest ih =>
    simp only [storeKeys, List.map_cons, List.nodup_cons] at hnd
    rcases List.mem_cons.1 he with rfl | he'
    · simp [rget]
    · have hne : e₀.key ≠ e.key := fun h =>
        hnd.1 (h ▸ List.mem_map_of_mem Entry.key he')
      simp [rget, hne, ih hnd.2 he']

/-! Lemmas about the disconnect sweep. -/

/-- A surviving record of the per-room disconnect body keeps a
non-empty member list and an unchanged playback cursor. -/
theorem disconnectRoom_some (d : String) (st st' : RoomState)
    (h : disconnectRoom d st = some st') :
    st'.users ≠ [] ∧ st'.currentTime = st.currentTime ∧
      st'.users = st.users.filter (fun id => id != d) := by
  unfold disconnectRoom at h
  rcases hf : st.users.filter (fun id => id != d) with _ | ⟨u, us⟩
  · rw [hf] at h; cases h
  · rw [hf] at h
    by_cases hl : st.leaderId = d <;>
      simp only [hl, if_pos, if_neg, not_false_eq_true, Option.some.injEq] at h <;>
      subst h <;> simp

/-- The per-room disconnect body deletes exactly the rooms it
empties. -/
theorem disconnectRoom_none (d : String) (st : RoomState)
    (h : st.users.filter (fun id => id != d) = []) :
    disconnectRoom d st = none := by
  unfold disconnectRoom
  rw [h]

/-- The disconnect sweep only ever drops keys, never invents them. -/
theorem storeKeys_disconnect_sublist (s : Store) (d : String) :
    (storeKeys (disconnect s d).1).Sublist (storeKeys s) := by
  induction s with
  | nil => simp [disconnect]
  | cons e rest ih =>
    rcases h : disconnectRoom d e.state with _ | st'
    · simp only [disconnect, h]
      exact ih.trans (List.sublist_cons_self _ _)
    · simpa [disconnect, h, storeKeys] using List.Sublist.cons₂ e.key ih

/-- Every entry surviving a disconnect sweep comes from a stored entry
with the same key, via the per-room body. -/
theorem mem_disconnect_fst (s : Store) (d : String) (e' : Entry)
    (he : e' ∈ (disconnect s d).1) :
    ∃ e ∈ s, e'.key = e.key ∧ disconnectRoom d e.state = some e'.state := by
  induction s with
  | nil => simp [disconnect] at he
  | cons e₀ rest ih =>
    rcases h : disconnectRoom d e₀.state with _ | st'
    · simp only [disconnect, h] at he
      rcases ih he with ⟨e, he₁, he₂⟩
      exact ⟨e, List.mem_cons_of_mem _ he₁, he₂⟩
    · simp only [disconnect, h, List.mem_cons] at he
      rcases he with rfl | he'
      · exact ⟨e₀, List.mem_cons_self _ _, rfl, h⟩
      · rcases ih he' with ⟨e, he₁, he₂⟩
        exact ⟨e, List.mem_cons_of_mem _ he₁, he₂⟩

/-- A record read back from the store belongs to some stored entry
under that key. -/
theorem exists_entry_of_rget (s : Store) (k : String) (r : RoomState)
    (h : rget s k = some r) : ∃ e ∈ s, e.key = k ∧ e.state = r := by
  induction s with
  | nil => cases h
  | cons e rest ih =>
    by_cases hk : e.key = k
    · rw [rget, if_pos hk] at h
      exact ⟨e, List.mem_cons_self _ _, hk, Option.some.inj h⟩
    · rw [rget, if_neg hk] at h
      rcases ih h with ⟨e', he', hk', hs'⟩
      exact ⟨e', List.mem_cons_of_mem _ he', hk', hs'⟩

/-! Concrete fixtures used by witnesses and counterexamples. -/

/-- A single-member room led by "u1". -/
def room1 : RoomState :=
  ⟨none, none, 0, false, ["u1"], none, none, "u1", none, none, none⟩

/-- A store holding `room1` under a well-formed id. -/
def store1 : Store := [⟨"abc123", room1, ROOM_TTL⟩]

/-- A two-member room led by "u1". -/
def room2 : RoomState :=
  ⟨none, none, 0, false, ["u1", "u2"], none, none, "u1", none, none, none⟩

/-- A three-member room led by "u1". -/
def room3 : RoomState :=
  ⟨none, none, 0, false, ["u1", "u2", "u3"], none, none, "u1", none, none, none⟩

/-- A single-member room led by "u1" with song metadata populated. -/
def roomMeta : RoomState :=
  ⟨some "url0", some "song0", 42, true, ["u1"], none, none, "u1",
    some "t0", some "a0", some "i0"⟩

/-- A store holding `room2` under a well-formed id. -/
def store2 : Store := [⟨"abc123", room2, ROOM_TTL⟩]

/-- A store holding `room3` under a well-formed id. -/
def store3 : Store := [⟨"abc123", room3, ROOM_TTL⟩]

/-- A store holding `roomMeta` under a well-formed id. -/
def storeMeta : Store := [⟨"abc123", roomMeta, ROOM_TTL⟩]

/-! Claim theorems. -/

/-- C1: a leader-gated command (playPause, changeSong, changeMoodSong,
seek) issued by a connection that is not the stored record's leader
leaves the store untouched, broadcasts nothing, and emits exactly one
error event to the requesting connection. -/
theorem nonleader_command_rejected (s : Store) (roomId sender : String)
    (r : RoomState) (hget : rget s roomId = some r)
    (hne : sender ≠ r.leaderId) :
    (∀ p t, playPause s sender roomId p t =
      (s, [Effect.errorToSender "Only the room leader can control playback"])) ∧
    (∀ url sid ti ar im, changeSong s sender roomId url sid ti ar im =
      (s, [Effect.errorToSender "Only the room leader can change songs"])) ∧
    (∀ url sid mo la ti ar, changeMoodSong s sender roomId url sid mo la ti ar =
      (s, [Effect.errorToSender "Only the room leader can change songs"])) ∧
    (∀ t, seek s sender roomId t =
      (s, [Effect.errorToSender "Only the room leader can seek"])) := by
  refine ⟨?_, ?_, ?_, ?_⟩ <;> intros <;>
    simp [playPause, changeSong, changeMoodSong, seek, hget, hne]

/-- Witness for C1 at a concrete store: "u2" is not the leader of
`room2`, so its playPause is rejected without touching the store. -/
theorem nonleader_command_rejected_witness :
    playPause store2 "u2" "abc123" true 5 =
      (store2, [Effect.errorToSender "Only the room leader can control playback"]) :=
  (nonleader_command_rejected store2 "abc123" "u2" room2 (by decide)
    (by decide)).1 true 5

/-- C5: a leader-issued changeSong on an existing room persists and
broadcasts one record whose currentTime is 0 and isPlaying is true,
whatever the prior cursor and transport state. -/
theorem changeSong_resets_cursor (s : Store) (roomId sender : String)
    (r : RoomState) (url sid : String) (ti ar im : Option String)
    (hget : rget s roomId = some r) (hl : sender = r.leaderId) :
    ∃ st', changeSong s sender roomId url sid ti ar im =
        (rset s roomId st', [Effect.updateStateToRoom roomId st']) ∧
      rget (changeSong s sender roomId url sid ti ar im).1 roomId = some st' ∧
      st'.currentTime = 0 ∧ st'.isPlaying = true := by
  refine ⟨{ r with currentSong := some url, currentSongId := some sid, currentTime := 0, isPlaying := true, title := ti, artist := ar, image := im }, ?_, ?_, rfl, rfl⟩ <;>
    simp [changeSong, hget, hl, rget_rset_self]

/-- Witness for C5: the leader "u1" changes the song in `storeMeta`,
whose record had cursor 42 and was playing; the stored result has
cursor 0 and is playing. -/
theorem changeSong_resets_cursor_witness :
    ∃ st', changeSong storeMeta "u1" "abc123" "url1" "song1" none none none =
        (rset storeMeta "abc123" st', [Effect.updateStateToRoom "abc123" st']) ∧
      rget (changeSong storeMeta "u1" "abc123" "url1" "song1" none none none).1
          "abc123" = some st' ∧
      st'.currentTime = 0 ∧ st'.isPlaying = true :=
  changeSong_resets_cursor storeMeta "abc123" "u1" roomMeta "url1" "song1"
    none none none (by decide) (by decide)

/-- C7: joinRoom with an id that fails the six-character lowercase
alphanumeric pattern emits only the "Invalid room ID" error to the
requester and returns every store unchanged, so the outcome never
depends on the store's contents. -/
theorem joinRoom_invalid_id (s : Store) (sender roomId : String)
    (hv : isValidRoomId roomId = false) :
    joinRoom s sender roomId = (s, [Effect.errorToSender "Invalid room ID"]) := by
  simp [joinRoom, hv]

/-- Witness for C7 at the malformed id "AB12". -/
theorem joinRoom_invalid_id_witness :
    joinRoom store2 "u9" "AB12" =
      (store2, [Effect.errorToSender "Invalid room ID"]) :=
  joinRoom_invalid_id store2 "u9" "AB12" (by decide)

/-- C10: a leader-issued changeSong writes the payload's title, artist
and image fields verbatim into the persisted and broadcast record, so
any field the payload omits is absent afterwards no matter what the
record held before. -/
theorem changeSong_overwrites_metadata (s : Store) (roomId sender : String)
    (r : RoomState) (url sid : String) (ti ar im : Option String)
    (hget : rget s roomId = some r) (hl : sender = r.leaderId) :
    ∃ st', changeSong s sender roomId url sid ti ar im =
        (rset s roomId st', [Effect.updateStateToRoom roomId st']) ∧
      rget (changeSong s sender roomId url sid ti ar im).1 roomId = some st' ∧
      st'.title = ti ∧ st'.artist = ar ∧ st'.image = im := by
  refine ⟨{ r with currentSong := some url, currentSongId := some sid, currentTime := 0, isPlaying := true, title := ti, artist := ar, image := im }, ?_, ?_, rfl, rfl, rfl⟩ <;>
    simp [changeSong, hget, hl, rget_rset_self]

/-- Witness for C10: `roomMeta` holds title "t0", artist "a0" and
image "i0", yet a changeSong whose payload omits all three leaves the
stored record with none of them. -/
theorem changeSong_overwrites_metadata_witness :
    ∃ st', changeSong storeMeta "u1" "abc123" "url1" "song1" none none none =
        (rset storeMeta "abc123" st', [Effect.updateStateToRoom "abc123" st']) ∧
      rget (changeSong storeMeta "u1" "abc123" "url1" "song1" none none none).1
          "abc123" = some st' ∧
      st'.title = none ∧ st'.artist = none ∧ st'.image = none :=
  changeSong_overwrites_metadata storeMeta "abc123" "u1" roomMeta "url1" "song1"
    none none none (by decide) (by decide)

/-- C2: when the stored leader of a room disconnects and at least two
members remain after the removal, the room's stored record afterwards
has leaderId equal to the first element of the post-removal users
sequence, and exactly that record is broadcast to the room. -/
theorem disconnect_reassigns_leader (s : Store) (k d : String)
    (r : RoomState) (u₁ u₂ : String) (us : List String)
    (hget : rget s k = some r) (hlead : r.leaderId = d)
    (hfil : r.users.filter (fun id => id != d) = u₁ :: u₂ :: us) :
    rget (disconnect s d).1 k =
        some { r with users := u₁ :: u₂ :: us, leaderId := u₁ } ∧
      Effect.updateStateToRoom k
          { r with users := u₁ :: u₂ :: us, leaderId := u₁ } ∈
        (disconnect s d).2 := by
  induction s with
  | nil => cases hget
  | cons e rest ih =>
    by_cases hk : e.key = k
    · subst hk
      have hes : e.state = r := by
        rw [rget, if_pos rfl] at hget
        exact Option.some.inj hget
      have hdr : disconnectRoom d e.state =
          some { r with users := u₁ :: u₂ :: us, leaderId := u₁ } := by
        rw [hes]
        unfold disconnectRoom
        rw [hfil]
        simp [hlead]
      simp only [disconnect, hdr]
      exact ⟨by rw [rget, if_pos rfl], List.mem_cons_self _ _⟩
    · rw [rget, if_neg hk] at hget
      obtain ⟨ih1, ih2⟩ := ih hget
      rcases hd : disconnectRoom d e.state with _ | st'
      · simp only [disconnect, hd]
        exact ⟨ih1, ih2⟩
      · simp only [disconnect, hd]
        exact ⟨by rw [rget, if_neg hk]; exact ih1, List.mem_cons_of_mem _ ih2⟩

/-- Witness for C2: the leader "u1" of the three-member `room3`
disconnects; the stored record and the broadcast both name "u2", the
head of the remaining sequence, as leader. -/
theorem disconnect_reassigns_leader_witness :
    rget (disconnect store3 "u1").1 "abc123" =
        some { room3 with users := ["u2", "u3"], leaderId := "u2" } ∧
      Effect.updateStateToRoom "abc123"
          { room3 with users := ["u2", "u3"], leaderId := "u2" } ∈
        (disconnect store3 "u1").2 :=
  disconnect_reassigns_leader store3 "abc123" "u1" room3 "u2" "u3" []
    (by decide) (by decide) (by decide)

/-- C3, failing input: the random value 0.5 renders in base 36 as
"0.i", so its fractional digit list is ['i'] and substring(2, 8)
yields the one-character room id "i".  createRoom still persists the
record (users = [creator], leaderId = creator) and acknowledges under
that id, but the id fails the six-character pattern, and the server's
own joinRoom then rejects it as an invalid room id. -/
theorem createRoom_short_id_bug :
    genRoomId ['i'] = "i" ∧
    isValidRoomId (genRoomId ['i']) = false ∧
    createRoom [] "u1" false ['i'] =
      ([⟨"i", ⟨none, none, 0, false, ["u1"], none, none, "u1", none, none, none⟩, ROOM_TTL⟩],
        [Effect.joinGroup "i", Effect.roomCreatedToSender "i"]) ∧
    (joinRoom (createRoom [] "u1" false ['i']).1 "u2" "i").2 =
      [Effect.errorToSender "Invalid room ID"] := by
  decide

/-- C6, counterexample: a second joinRoom by "u1", already sole member
of `room1`, leaves "u1" stored twice in the room's users sequence. -/
theorem joinRoom_duplicate_counterexample :
    (rget (joinRoom store1 "u1" "abc123").1 "abc123").map RoomState.users =
      some ["u1", "u1"] := by
  decide

/-- C6, amended: joinRoom on an existing room appends the joining
connection id to users unconditionally (append, not set-union), so
each join by an already-present connection adds one more occurrence
and duplicates do occur. -/
theorem joinRoom_appends (s : Store) (roomId sender : String)
    (r : RoomState) (hv : isValidRoomId roomId = true)
    (hget : rget s roomId = some r) :
    joinRoom s sender roomId =
      (rset s roomId { r with users := r.users ++ [sender] },
        [Effect.joinGroup roomId,
          Effect.roomJoinedToSender roomId { r with users := r.users ++ [sender] }]) ∧
    rget (joinRoom s sender roomId).1 roomId =
      some { r with users := r.users ++ [sender] } ∧
    (r.users ++ [sender]).count sender = r.users.count sender + 1 := by
  refine ⟨?_, ?_, ?_⟩
  · simp [joinRoom, hv, hget]
  · simp [joinRoom, hv, hget, rget_rset_self]
  · simp

/-- Witness for C6's amended statement: "u1" re-joins `store1` and the
stored users sequence becomes its former value with "u1" appended. -/
theorem joinRoom_appends_witness :
    rget (joinRoom store1 "u1" "abc123").1 "abc123" =
      some { room1 with users := room1.users ++ ["u1"] } :=
  (joinRoom_appends store1 "abc123" "u1" room1 (by decide) (by decide)).2.1

/-- The reconciliation sweep threads the store through unchanged. -/
theorem reconcileKeys_fst (s : Store) (ks : List String) :
    (reconcileKeys s ks).1 = s := by
  induction ks with
  | nil => rfl
  | cons k ks ih =>
    rcases h : rget s k with _ | st <;> simp [reconcileKeys, h, ih]

/-- The reconciliation sweep emits one broadcast per key that loads,
carrying exactly the loaded record. -/
theorem reconcileKeys_snd (s : Store) (ks : List String) :
    (reconcileKeys s ks).2 = ks.filterMap
      (fun k => (rget s k).map (fun st => Effect.updateStateToRoom k st)) := by
  induction ks with
  | nil => rfl
  | cons k ks ih =>
    rcases h : rget s k with _ | st <;> simp [reconcileKeys, h, ih]

/-- Sweeping a duplicate-free store's own keys broadcasts each stored
entry's record once, in store order. -/
theorem storeKeys_filterMap_rget (s : Store) (h : (storeKeys s).Nodup) :
    (storeKeys s).filterMap
        (fun k => (rget s k).map (fun st => Effect.updateStateToRoom k st)) =
      s.map (fun e => Effect.updateStateToRoom e.key e.state) := by
  induction s with
  | nil => rfl
  | cons e rest ih =>
    simp only [storeKeys, List.map_cons, List.nodup_cons] at h
    have hhead : rget (e :: rest) e.key = some e.state := by
      rw [rget, if_pos rfl]
    have hcongr : ∀ k ∈ List.map Entry.key rest,
        (rget (e :: rest) k).map (fun st => Effect.updateStateToRoom k st) =
          (rget rest k).map (fun st => Effect.updateStateToRoom k st) := by
      intro k hkmem
      have : e.key ≠ k := fun hek => h.1 (hek ▸ hkmem)
      rw [rget, if_neg this]
    simp only [storeKeys, List.map_cons, List.filterMap_cons, hhead,
      Option.map_some']
    rw [List.filterMap_congr hcongr]
    exact congrArg (List.cons _) (ih h.2)

/-- C9: one iteration of the reconciliation loop returns the store
exactly as it was, every record and every ttl included, and broadcasts
to each room's group precisely the record loaded for that room's
key. -/
theorem reconcileTick_pure_broadcast (s : Store)
    (h : (storeKeys s).Nodup) :
    (reconcileTick s).1 = s ∧
    (reconcileTick s).2 =
      s.map (fun e => Effect.updateStateToRoom e.key e.state) := by
  refine ⟨reconcileKeys_fst s _, ?_⟩
  rw [reconcileTick, reconcileKeys_snd]
  exact storeKeys_filterMap_rget s h

/-- Witness for C9 on a two-room store with distinct ttls: the tick
leaves it untouched and broadcasts both records. -/
theorem reconcileTick_pure_broadcast_witness :
    (reconcileTick [⟨"abc123", room2, ROOM_TTL⟩, ⟨"xyz789", room1, 77⟩]).1 =
        [⟨"abc123", room2, ROOM_TTL⟩, ⟨"xyz789", room1, 77⟩] ∧
    (reconcileTick [⟨"abc123", room2, ROOM_TTL⟩, ⟨"xyz789", room1, 77⟩]).2 =
      [Effect.updateStateToRoom "abc123" room2,
        Effect.updateStateToRoom "xyz789" room1] :=
  reconcileTick_pure_broadcast
    [⟨"abc123", room2, ROOM_TTL⟩, ⟨"xyz789", room1, 77⟩] (by decide)

/-- C8, counterexample: the leader of `store1` seeks to -1 and the
stored record's cursor becomes -1, a negative value. -/
theorem seek_negative_time_counterexample :
    (rget (step store1 (Cmd.seek "u1" "abc123" (-1))).1 "abc123").map
        RoomState.currentTime = some (-1) ∧
      ¬ (0 : Int) ≤ -1 := by
  decide

/-- Whether a command's payload carries only a non-negative playback
cursor; commands without a cursor payload are unrestricted. -/
def payloadTimeOk : Cmd → Bool
  | Cmd.playPause _ _ _ t => decide (0 ≤ t)
  | Cmd.seek _ _ t => decide (0 ≤ t)
  | _ => true

/-- C8, amended: stored cursors stay non-negative across every command
whose payload cursor (for playPause and seek, which copy it into the
record unvalidated) is non-negative; createRoom, changeSong and
changeMoodSong write cursor 0 and the remaining commands leave cursors
unchanged.  Without the payload restriction the property fails, as the
counterexample shows. -/
theorem step_time_nonneg (s : Store) (c : Cmd)
    (hs : ∀ e ∈ s, 0 ≤ e.state.currentTime)
    (hc : payloadTimeOk c = true) :
    ∀ e ∈ (step s c).1, 0 ≤ e.state.currentTime := by
  intro e he
  cases c with
  | createRoom sender mood digits =>
    rcases mem_rset _ _ _ _ he with rfl | he'
    · simp
    · exact hs e he'
  | joinRoom sender rid =>
    by_cases hv : isValidRoomId rid
    · rcases hr : rget s rid with _ | r
      · simp only [step, joinRoom, hv, if_true, hr] at he
        exact hs e he
      · have husers : 0 ≤ r.currentTime := by
          obtain ⟨e₀, he₀, -, hs₀⟩ := exists_entry_of_rget s rid r hr
          exact hs₀ ▸ hs e₀ he₀
        simp only [step, joinRoom, hv, if_true, hr] at he
        rcases mem_rset _ _ _ _ he with rfl | he'
        · exact husers
        · exact hs e he'
    · simp only [step, joinRoom, hv, if_false] at he
      exact hs e he
  | playPause sender rid p t =>
    have ht : (0 : Int) ≤ t := of_decide_eq_true hc
    rcases hr : rget s rid with _ | r
    · simp only [step, playPause, hr] at he
      exact hs e he
    · by_cases hl : sender = r.leaderId
      · simp only [step, playPause, hr, hl, if_pos] at he
        rcases mem_rset _ _ _ _ he with rfl | he'
        · exact ht
        · exact hs e he'
      · simp only [step, playPause, hr, hl, if_neg, not_false_eq_true] at he
        exact hs e he
  | changeSong sender rid url sid ti ar im =>
    rcases hr : rget s rid with _ | r
    · simp only [step, changeSong, hr] at he
      exact hs e he
    · by_cases hl : sender = r.leaderId
      · simp only [step, changeSong, hr, hl, if_pos] at he
        rcases mem_rset _ _ _ _ he with rfl | he'
        · simp
        · exact hs e he'
      · simp only [step, changeSong, hr, hl, if_neg, not_false_eq_true] at he
        exact hs e he
  | changeMoodSong sender rid url sid mo la ti ar =>
    rcases hr : rget s rid with _ | r
    · simp only [step, changeMoodSong, hr] at he
      exact hs e he
    · by_cases hl : sender = r.leaderId
      · simp only [step, changeMoodSong, hr, hl, if_pos] at he
        rcases mem_rset _ _ _ _ he with rfl | he'
        · simp
        · exact hs e he'
      · simp only [step, changeMoodSong, hr, hl, if_neg, not_false_eq_true] at he
        exact hs e he
  | seek sender rid t =>
    have ht : (0 : Int) ≤ t := of_decide_eq_true hc
    rcases hr : rget s rid with _ | r
    · simp only [step, seek, hr] at he
      exact hs e he
    · by_cases hl : sender = r.leaderId
      · simp only [step, seek, hr, hl, if_pos] at he
        rcases mem_rset _ _ _ _ he with rfl | he'
        · exact ht
        · exact hs e he'
      · simp only [step, seek, hr, hl, if_neg, not_false_eq_true] at he
        exact hs e he
  | disconnect d =>
    obtain ⟨e₀, he₀, -, hdr⟩ := mem_disconnect_fst s d e he
    obtain ⟨-, hct, -⟩ := disconnectRoom_some d e₀.state e.state hdr
    rw [hct]
    exact hs e₀ he₀

/-- Witness for C8's amended statement: the leader seeks to 5 in
`store1` and the stored cursor stays non-negative. -/
theorem step_time_nonneg_witness :
    (0 : Int) ≤ ({ room1 with currentTime := 5 } : RoomState).currentTime :=
  step_time_nonneg store1 (Cmd.seek "u1" "abc123" 5) (by decide) (by decide)
    ⟨"abc123", { room1 with currentTime := 5 }, ROOM_TTL⟩ (by decide)

/-- The room-existence invariant: stored keys are pairwise distinct
and every stored record keeps a non-empty member list. -/
def Inv (s : Store) : Prop :=
  (storeKeys s).Nodup ∧ ∀ e ∈ s, e.state.users ≠ []

/-- A write whose record keeps members preserves the invariant. -/
theorem inv_of_rset (s : Store) (k : String) (v : RoomState)
    (hnd : (storeKeys s).Nodup) (hus : ∀ e ∈ s, e.state.users ≠ [])
    (hv : v.users ≠ []) : Inv (rset s k v) := by
  refine ⟨nodup_storeKeys_rset _ _ _ hnd, ?_⟩
  intro e he
  rcases mem_rset _ _ _ _ he with rfl | he'
  · exact hv
  · exact hus e he'

/-- Every command preserves the room-existence invariant. -/
theorem inv_preserved (s : Store) (c : Cmd) (hinv : Inv s) :
    Inv (step s c).1 := by
  obtain ⟨hnd, hus⟩ := hinv
  cases c with
  | createRoom sender mood digits =>
    exact inv_of_rset _ _ _ hnd hus (by simp)
  | joinRoom sender rid =>
    by_cases hv : isValidRoomId rid
    · rcases hr : rget s rid with _ | r
      · have hstep : (step s (Cmd.joinRoom sender rid)).1 = s := by
          simp [step, joinRoom, hv, hr]
        rw [hstep]
        exact ⟨hnd, hus⟩
      · have hstep : (step s (Cmd.joinRoom sender rid)).1 =
            rset s rid { r with users := r.users ++ [sender] } := by
          simp [step, joinRoom, hv, hr]
        rw [hstep]
        exact inv_of_rset _ _ _ hnd hus (by simp)
    · have hstep : (step s (Cmd.joinRoom sender rid)).1 = s := by
        simp [step, joinRoom, hv]
      rw [hstep]
      exact ⟨hnd, hus⟩
  | playPause sender rid p t =>
    rcases hr : rget s rid with _ | r
    · have hstep : (step s (Cmd.playPause sender rid p t)).1 = s := by
        simp [step, playPause, hr]
      rw [hstep]
      exact ⟨hnd, hus⟩
    · have husers : r.users ≠ [] := by
        obtain ⟨e₀, he₀, -, hs₀⟩ := exists_entry_of_rget s rid r hr
        exact hs₀ ▸ hus e₀ he₀
      by_cases hl : sender = r.leaderId
      · have hstep : (step s (Cmd.playPause sender rid p t)).1 =
            rset s rid { r with isPlaying := p, currentTime := t } := by
          simp [step, playPause, hr, hl]
        rw [hstep]
        exact inv_of_rset _ _ _ hnd hus husers
      · have hstep : (step s (Cmd.playPause sender rid p t)).1 = s := by
          simp [step, playPause, hr, hl]
        rw [hstep]
        exact ⟨hnd, hus⟩
  | changeSong sender rid url sid ti ar im =>
    rcases hr : rget s rid with _ | r
    · have hstep : (step s (Cmd.changeSong sender rid url sid ti ar im)).1 = s := by
        simp [step, changeSong, hr]
      rw [hstep]
      exact ⟨hnd, hus⟩
    · have husers : r.users ≠ [] := by
        obtain ⟨e₀, he₀, -, hs₀⟩ := exists_entry_of_rget s rid r hr
        exact hs₀ ▸ hus e₀ he₀
      by_cases hl : sender = r.leaderId
      · have hstep : (step s (Cmd.changeSong sender rid url sid ti ar im)).1 =
            rset s rid { r with currentSong := some url, currentSongId := some sid, currentTime := 0, isPlaying := true, title := ti, artist := ar, image := im } := by
          simp [step, changeSong, hr, hl]
        rw [hstep]
        exact inv_of_rset _ _ _ hnd hus husers
      · have hstep : (step s (Cmd.changeSong sender rid url sid ti ar im)).1 = s := by
          simp [step, changeSong, hr, hl]
        rw [hstep]
        exact ⟨hnd, hus⟩
  | changeMoodSong sender rid url sid mo la ti ar =>
    rcases hr : rget s rid with _ | r
    · have hstep : (step s (Cmd.changeMoodSong sender rid url sid mo la ti ar)).1 = s := by
        simp [step, changeMoodSong, hr]
      rw [hstep]
      exact ⟨hnd, hus⟩
    · have husers : r.users ≠ [] := by
        obtain ⟨e₀, he₀, -, hs₀⟩ := exists_entry_of_rget s rid r hr
        exact hs₀ ▸ hus e₀ he₀
      by_cases hl : sender = r.leaderId
      · have hstep : (step s (Cmd.changeMoodSong sender rid url sid mo la ti ar)).1 =
            rset s rid { r with currentSong := some url, currentSongId := some sid, mood := some mo, language := some la, currentTime := 0, isPlaying := true, title := ti, artist := ar } := by
          simp [step, changeMoodSong, hr, hl]
        rw [hstep]
        exact inv_of_rset _ _ _ hnd hus husers
      · have hstep : (step s (Cmd.changeMoodSong sender rid url sid mo la ti ar)).1 = s := by
          simp [step, changeMoodSong, hr, hl]
        rw [hstep]
        exact ⟨hnd, hus⟩
  | seek sender rid t =>
    rcases hr : rget s rid with _ | r
    · have hstep : (step s (Cmd.seek sender rid t)).1 = s := by
        simp [step, seek, hr]
      rw [hstep]
      exact ⟨hnd, hus⟩
    · have husers : r.users ≠ [] := by
        obtain ⟨e₀, he₀, -, hs₀⟩ := exists_entry_of_rget s rid r hr
        exact hs₀ ▸ hus e₀ he₀
      by_cases hl : sender = r.leaderId
      · have hstep : (step s (Cmd.seek sender rid t)).1 =
            rset s rid { r with currentTime := t } := by
          simp [step, seek, hr, hl]
        rw [hstep]
        exact inv_of_rset _ _ _ hnd hus husers
      · have hstep : (step s (Cmd.seek sender rid t)).1 = s := by
          simp [step, seek, hr, hl]
        rw [hstep]
        exact ⟨hnd, hus⟩
  | disconnect d =>
    refine ⟨List.Nodup.sublist (storeKeys_disconnect_sublist s d) hnd, ?_⟩
    intro e he
    obtain ⟨e₀, he₀, -, hdr⟩ := mem_disconnect_fst s d e he
    exact (disconnectRoom_some d e₀.state e.state hdr).1

/-- Emptying a room under unique keys removes its key from the
store. -/
theorem rget_disconnect_eq_none (s : Store) (d k : String) (r : RoomState)
    (hnd : (storeKeys s).Nodup) (hget : rget s k = some r)
    (hfil : r.users.filter (fun id => id != d) = []) :
    rget (disconnect s d).1 k = none := by
  induction s with
  | nil => cases hget
  | cons e rest ih =>
    simp only [storeKeys, List.map_cons, List.nodup_cons] at hnd
    by_cases hk : e.key = k
    · subst hk
      have hes : e.state = r :=
        Option.some.inj (by rwa [rget, if_pos rfl] at hget)
      have hdr : disconnectRoom d e.state = none := by
        rw [hes]
        exact disconnectRoom_none d r hfil
      simp only [disconnect, hdr]
      apply rget_eq_none_of_not_mem
      intro hmem
      exact hnd.1 ((storeKeys_disconnect_sublist rest d).subset hmem)
    · rw [rget, if_neg hk] at hget
      have htail := ih hnd.2 hget
      rcases hd : disconnectRoom d e.state with _ | st'
      · simpa only [disconnect, hd] using htail
      · simp only [disconnect, hd]
        rw [rget, if_neg hk]
        exact htail

/-- C4: starting from any store satisfying the room-existence
invariant, every command preserves it (so a record is stored only
while its users sequence is non-empty), the disconnect that empties a
room deletes its key instead of persisting it, and a joinRoom on a
well-formed id with no stored record only emits the "Room not found"
error and leaves the store unchanged. -/
theorem room_records_nonempty (s : Store) (c : Cmd) (hinv : Inv s) :
    Inv (step s c).1 ∧
    (∀ d k r, c = Cmd.disconnect d → rget s k = some r →
      r.users.filter (fun id => id != d) = [] →
      rget (step s c).1 k = none) ∧
    (∀ sender rid, isValidRoomId rid = true → rget s rid = none →
      step s (Cmd.joinRoom sender rid) =
        (s, [Effect.errorToSender "Room not found"])) := by
  obtain ⟨hnd, hus⟩ := hinv
  refine ⟨inv_preserved s c ⟨hnd, hus⟩, ?_, ?_⟩
  · rintro d k r rfl hget hfil
    exact rget_disconnect_eq_none s d k r hnd hget hfil
  · intro sender rid hv hr
    simp [step, joinRoom, hv, hr]

/-- Witness for C4: the sole member of `store1` disconnects; the
invariant still holds afterwards, the emptied room's key reads back as
absent, and a well-formed unknown id is reported as not found. -/
theorem room_records_nonempty_witness :
    Inv (step store1 (Cmd.disconnect "u1")).1 ∧
      rget (step store1 (Cmd.disconnect "u1")).1 "abc123" = none :=
  ⟨(room_records_nonempty store1 (Cmd.disconnect "u1") ⟨by decide, by decide⟩).1,
    (room_records_nonempty store1 (Cmd.disconnect "u1")
        ⟨by decide, by decide⟩).2.1 "u1" "abc123" room1 rfl (by decide)
      (by decide)⟩

end Vibron

